import Mathlib

/-!
Verification of the query-cache core of the repository (query-store).

The development shallowly embeds the TypeScript source: entry state is a
record, handlers of the promise chain built by `refetch` become pure state
transformers, times are integers (milliseconds of the JS clock), and the
identity of the `pending` descriptor object (compared with `===` in the
source) is represented by a natural-number token that is fresh per started
operation.
-/

namespace PiniaColada

/-- Status of a query entry, as in the source union type `UseQueryStatus`:
`pending` is the initial state, `loading` means a request is being made,
`error` means the last request failed, `success` means it succeeded. -/
inductive UseQueryStatus where
  | pending
  | loading
  | error
  | success
deriving DecidableEq, Repr

/-- Fetch configuration attached to an entry (`UseQueryOptionsWithDefaults`).
The query function itself is opaque to the cache: its identity is represented
by `queryId`, and the outcome of each invocation is supplied externally when a
started operation settles. `initialData` models the optional thunk result. -/
structure UseQueryOptions (α : Type) where
  key : List String
  staleTime : Int
  initialData : Option α
  queryId : Nat
deriving DecidableEq, Repr

/-- The in-flight operation descriptor stored in `entry.pending`
(`{ refreshCall, when }` in the source). The source distinguishes descriptors
by object identity (`pendingCall === entry.pending`); `token` models that
identity. -/
structure PendingOp where
  token : Nat
  when : Int
deriving DecidableEq, Repr

/-- A query entry (`UseQueryEntry`): `data` is the last successful result
(`undefined` = `none`), `error` the last rejection (`null` = `none`),
`when` the completion time of the last resolution in ms, `pending` the
at-most-one in-flight operation, and `options` the lazily attached fetch
configuration. -/
structure UseQueryEntry (α ε : Type) where
  data : Option α
  error : Option ε
  status : UseQueryStatus
  when : Int
  pending : Option PendingOp
  options : Option (UseQueryOptions α)
deriving DecidableEq, Repr

/-- `createQueryEntry(initialData?, error = null, when = 0)` from the source:
status is `error` if an error is given, else `success` if data is defined,
else `pending`; the `pending` slot starts `null` and no options are attached. -/
def createQueryEntry {α ε : Type} (initialData : Option α := none)
    (error : Option ε := none) (when : Int := 0) : UseQueryEntry α ε :=
  { data := initialData
    error := error
    status := if error.isSome then .error
              else if initialData.isSome then .success
              else .pending
    when := when
    pending := none
    options := none }

/-- `queryEntry_toJSON(entry)` from the source: the serialized value of an
entry is the triple `[entry.data.value, entry.error.value, entry.when]`
(the absolute `when` timestamp, no clock arithmetic). -/
def queryEntry_toJSON {α ε : Type} (e : UseQueryEntry α ε) :
    Option α × Option ε × Int :=
  (e.data, e.error, e.when)

/-- `isExpired(lastRefresh, staleTime)` from the source, with the call to
`Date.now()` passed explicitly as `now`: `Date.now() > lastRefresh + staleTime`. -/
def isExpired (lastRefresh staleTime now : Int) : Bool :=
  now > lastRefresh + staleTime

/-- Build configuration: the source guards the missing-options check with
`process.env.NODE_ENV !== 'production'`. -/
inductive Build where
  | dev
  | prod
deriving DecidableEq, Repr

/-- The failures refetch/refresh can raise before starting an operation:
`configError` is the explicit `new Error(...)` thrown by the dev-only
options check; `typeError` models the TypeError raised by accessing
`entry.options!.key` / destructuring `entry.options!` when options are absent
(the production path). -/
inductive JsError where
  | configError
  | typeError
deriving DecidableEq, Repr

/-- The guard `pendingCall === entry.pending` used inside every settlement
handler of `refetch`: true iff the live pending descriptor is the one this
operation installed. -/
def pendingMatches {α ε : Type} (e : UseQueryEntry α ε) (tok : Nat) : Bool :=
  match e.pending with
  | some p => p.token == tok
  | none => false

/-- The synchronous effects of `refetch` once the guards passed: it sets
`entry.status.value = 'loading'` and installs the fresh pending descriptor
`{ refreshCall, when: Date.now() }`. -/
def refetchStarted {α ε : Type} (e : UseQueryEntry α ε) (tok : Nat)
    (now : Int) : UseQueryEntry α ε :=
  { e with status := .loading, pending := some ⟨tok, now⟩ }

/-- The synchronous prefix of `refetch`: in a non-production build an entry
without options raises the explicit configuration error; in production the
check is skipped and the subsequent `entry.options!.key` access fails with a
TypeError; otherwise status becomes `loading` and the fresh descriptor is
installed. -/
def refetch_start {α ε : Type} (b : Build) (e : UseQueryEntry α ε)
    (tok : Nat) (now : Int) : Except JsError (UseQueryEntry α ε) :=
  match e.options with
  | none => .error (if b = .dev then .configError else .typeError)
  | some _ => .ok (refetchStarted e tok now)

/-- The `.then` handler of the chain built by `refetch`: if this operation is
still the live pending one, commit the data, clear the error and set status
`success`; otherwise do nothing. -/
def handleThen {α ε : Type} (e : UseQueryEntry α ε) (tok : Nat) (v : α) :
    UseQueryEntry α ε :=
  if pendingMatches e tok then
    { e with error := none, data := some v, status := .success }
  else e

/-- The `.catch` handler: if still the live pending operation, commit the
error and set status `error`; otherwise do nothing. The handler does not
rethrow, so the chain continues fulfilled. -/
def handleCatch {α ε : Type} (e : UseQueryEntry α ε) (tok : Nat) (err : ε) :
    UseQueryEntry α ε :=
  if pendingMatches e tok then
    { e with error := some err, status := .error }
  else e

/-- The `.finally` handler: if still the live pending operation, clear the
pending slot and stamp `when` with the completion time. -/
def handleFinally {α ε : Type} (e : UseQueryEntry α ε) (tok : Nat)
    (now : Int) : UseQueryEntry α ε :=
  if pendingMatches e tok then
    { e with pending := none, when := now }
  else e

/-- Outcome-carrying state of a settled JS promise whose value type is `Unit`,
threading the entry state mutated by handlers. -/
abbrev PromiseState (ε σ : Type) := σ × Except ε Unit

/-- Semantics of `.catch(g)` on a settled promise: a rejection runs the
handler (which returns `undefined`, producing a fulfilled promise); a
fulfillment passes through untouched. -/
def jsCatch {ε σ : Type} (g : ε → σ → σ) : PromiseState ε σ → PromiseState ε σ
  | (s, .ok u) => (s, .ok u)
  | (s, .error err) => (g err s, .ok ())

/-- Semantics of `.finally(h)` on a settled promise: the handler always runs
and the settlement passes through. -/
def jsFinally {ε σ : Type} (h : σ → σ) : PromiseState ε σ → PromiseState ε σ
  | (s, r) => (h s, r)

/-- The whole `refreshCall` chain
`query().then(onData).catch(onError).finally(onSettled)` of `refetch`, as a
function of the outcome `q` of the query invocation: it returns the entry
state after the three handlers ran and the settlement of the chain that the
awaiting caller observes. -/
def refreshCall {α ε : Type} (e : UseQueryEntry α ε) (tok : Nat)
    (q : Except ε α) (now : Int) : PromiseState ε (UseQueryEntry α ε) :=
  jsFinally (fun s => handleFinally s tok now)
    (jsCatch (fun err s => handleCatch s tok err)
      (match q with
       | .ok v => (handleThen e tok v, .ok ())
       | .error err => (e, .error err)))

/-- A complete run of `refetch` for one operation with no interleaving: the
synchronous prefix, the query settling with `q` at `tSettle`, and the caller
resuming `await pendingCall.refreshCall` and returning `entry.data.value!`.
The second component is the settlement of the promise `refetch` returned. -/
def refetch_run {α ε : Type} (b : Build) (e : UseQueryEntry α ε) (tok : Nat)
    (tStart : Int) (q : Except ε α) (tSettle : Int) :
    Except JsError (UseQueryEntry α ε × Except ε (Option α)) :=
  match refetch_start b e tok tStart with
  | .error err => .error err
  | .ok e1 =>
      let p := refreshCall e1 tok q tSettle
      .ok (p.1, p.2.map fun _ => p.1.data)

/-- Result of the synchronous prefix of `refresh`: return the current data at
once (fresh entry), await the in-flight `entry.pending.refreshCall`
(deduplication), or call `refetch`. -/
inductive RefreshStep (α : Type) where
  | immediate (d : Option α)
  | awaitInFlight (tok : Nat)
  | startFetch
deriving DecidableEq, Repr

/-- The synchronous prefix of `refresh`: the same missing-options guards as
`refetch`, then `entry.error.value || isExpired(entry.when, staleTime)`
decides between returning the current data immediately and awaiting
`entry.pending?.refreshCall ?? refetch(entry)`. -/
def refresh_decision {α ε : Type} (b : Build) (e : UseQueryEntry α ε)
    (now : Int) : Except JsError (RefreshStep α) :=
  match e.options with
  | none => .error (if b = .dev then .configError else .typeError)
  | some o =>
      if e.error.isSome || isExpired e.when o.staleTime now then
        match e.pending with
        | some p => .ok (.awaitInFlight p.token)
        | none => .ok .startFetch
      else .ok (.immediate e.data)

/-- Resumption of a `refresh` caller after the awaited promise settles with
`r` while the entry is in state `e`: a rejection is re-raised by `await`,
a fulfillment makes `refresh` return `entry.data.value!`. -/
def refresh_resume {α ε : Type} (e : UseQueryEntry α ε) (r : Except ε Unit) :
    Except ε (Option α) :=
  r.map fun _ => e.data

/-- A complete run of `refresh` by a single caller with no interleaving.
`tok` is the fresh descriptor token used if a fetch is started, `q` and
`tSettle` describe how the awaited operation (started here or already in
flight) settles. -/
def refresh_run {α ε : Type} (b : Build) (e : UseQueryEntry α ε) (now : Int)
    (tok : Nat) (q : Except ε α) (tSettle : Int) :
    Except JsError (UseQueryEntry α ε × Except ε (Option α)) :=
  match refresh_decision b e now with
  | .error err => .error err
  | .ok (.immediate d) => .ok (e, .ok d)
  | .ok (.awaitInFlight ptok) =>
      let p := refreshCall e ptok q tSettle
      .ok (p.1, refresh_resume p.1 p.2)
  | .ok .startFetch =>
      match refetch_start b e tok now with
      | .error err => .error err
      | .ok e1 =>
          let p := refreshCall e1 tok q tSettle
          .ok (p.1, refresh_resume p.1 p.2)

/-- The per-entry effect of `setEntryData` with a literal value: overwrite
`entry.data.value` and set `entry.error.value = null`; `status`, `when` and
`pending` are not touched. -/
def setEntryData {α ε : Type} (e : UseQueryEntry α ε) (v : α) :
    UseQueryEntry α ε :=
  { e with data := some v, error := none }

/-! ## Hierarchical key index

Modelled from the spec: the class `TreeMapNode` lives in `tree-map.ts`, which
is not part of the sources at hand (only its import and uses are). Per the
spec, a node owns an optional value and an optional mapping from segment to
child node; `get` follows each segment exactly, `set` creates intermediate
nodes as needed and overwrites the terminal value, and `find` returns the
subtree rooted at the terminal node of the key. The children mapping is a JS
`Map`, so it preserves insertion order and distinguishes an absent map from
an empty one; it is modelled as an insertion-ordered association list, with
an explicit `absent` state for the absent map. -/

mutual
inductive TreeMapNode (α : Type) : Type where
  | mk (value : Option α) (children : ChildrenMap α)

inductive ChildrenMap (α : Type) : Type where
  | absent
  | map (entries : ChildEntries α)

inductive ChildEntries (α : Type) : Type where
  | nil
  | cons (key : String) (node : TreeMapNode α) (rest : ChildEntries α)
end

/-- Value stored at a node. -/
def TreeMapNode.value {α : Type} : TreeMapNode α → Option α
  | .mk v _ => v

/-- Children mapping of a node. -/
def TreeMapNode.children {α : Type} : TreeMapNode α → ChildrenMap α
  | .mk _ cs => cs

/-- Entries of a children mapping, an absent map reading as empty. -/
def ChildrenMap.entriesD {α : Type} : ChildrenMap α → ChildEntries α
  | .absent => .nil
  | .map l => l

/-- `Map.get` on the children mapping of a node. -/
def ChildEntries.lookup {α : Type} : ChildEntries α → String → Option (TreeMapNode α)
  | .nil, _ => none
  | .cons k n rest, k' => if k = k' then some n else rest.lookup k'

/-- `Map.set` on the children mapping: replaces the node of an existing key in
place (JS Maps keep the position of an updated key) and appends a new key at
the end. -/
def ChildEntries.replaceOrAppend {α : Type} :
    ChildEntries α → String → TreeMapNode α → ChildEntries α
  | .nil, k, n => .cons k n .nil
  | .cons k' n' rest, k, n =>
      if k' = k then .cons k n rest
      else .cons k' n' (rest.replaceOrAppend k n)

/-- A node with no value and no children (`new TreeMapNode()`). -/
def TreeMapNode.empty {α : Type} : TreeMapNode α := .mk none .absent

/-- Exact-match lookup: follow every segment, return the value of the terminal
node, or `none` if a segment is missing or the terminal node has no value. -/
def TreeMapNode.get {α : Type} : TreeMapNode α → List String → Option α
  | n, [] => n.value
  | n, k :: ks =>
      match n.children.entriesD.lookup k with
      | some c => c.get ks
      | none => none

/-- `set(key, value)`: creates intermediate nodes as needed along the path and
overwrites the value at the terminal node. -/
def TreeMapNode.set {α : Type} : TreeMapNode α → List String → α → TreeMapNode α
  | n, [], x => .mk (some x) n.children
  | n, k :: ks, x =>
      let l := n.children.entriesD
      let child := (l.lookup k).getD .empty
      .mk n.value (.map (l.replaceOrAppend k (child.set ks x)))

/-- `find(key)`: the subtree rooted at the terminal node of the key, or none
if a segment is missing. -/
def TreeMapNode.find {α : Type} : TreeMapNode α → List String → Option (TreeMapNode α)
  | n, [] => some n
  | n, k :: ks =>
      match n.children.entriesD.lookup k with
      | some c => c.find ks
      | none => none

/-- Replace the subtree at `key` by `f` of it, leaving the tree untouched when
the path is missing. This models mutating the entries of the found subtree in
place. -/
def TreeMapNode.mapAt {α : Type} :
    TreeMapNode α → List String → (TreeMapNode α → TreeMapNode α) → TreeMapNode α
  | n, [], f => f n
  | n, k :: ks, f =>
      match n.children.entriesD.lookup k with
      | some c => .mk n.value (.map (n.children.entriesD.replaceOrAppend k (c.mapAt ks f)))
      | none => n

/-! ## Cache engine operations on the index -/

/-- `ensureEntry(keyRaw, options)` with the key already normalized to its
stringified segments: look up the entry, create it with
`createQueryEntry(options.initialData?.())` when absent, attach `options`
only when the entry has none, and return the (updated) registry together
with the entry handed back to the caller. The in-place mutation of the shared
entry object is modelled by writing the updated entry back at the key. -/
def ensureEntry {α ε : Type} (root : TreeMapNode (UseQueryEntry α ε))
    (key : List String) (options : UseQueryOptions α) :
    TreeMapNode (UseQueryEntry α ε) × UseQueryEntry α ε :=
  let entry0 : UseQueryEntry α ε :=
    match root.get key with
    | some e => e
    | none => createQueryEntry options.initialData
  let entry :=
    if entry0.options.isNone then { entry0 with options := some options }
    else entry0
  (root.set key entry, entry)

/-- The net per-entry effect of the loop body of `invalidateEntry`:
`entry.when = 0`; when `shouldRefetch`, additionally `entry.pending = null`
followed by `refetch(entry)`, whose synchronous prefix either installs the
fresh descriptor and status `loading`, or (entry without options) rejects its
own promise before mutating anything, the loop continuing either way. -/
def invalidateApply {α ε : Type} (b : Build) (shouldRefetch : Bool)
    (tok : Nat) (t : Int) (e : UseQueryEntry α ε) : UseQueryEntry α ε :=
  let e1 := { e with when := 0 }
  if shouldRefetch then
    let e2 := { e1 with pending := none }
    match refetch_start b e2 tok t with
    | .ok e3 => e3
    | .error _ => e2
  else e1

mutual
/-- Apply the invalidation loop body to the value of a node and recursively to
every node of its subtree; the counter threads fresh descriptor tokens, one
per invalidated entry. -/
def invalidateNode {α ε : Type} (b : Build) (sr : Bool) (t : Int) :
    TreeMapNode (UseQueryEntry α ε) → Nat → TreeMapNode (UseQueryEntry α ε) × Nat
  | .mk v cs, tok =>
      let p : Option (UseQueryEntry α ε) × Nat :=
        match v with
        | some e => (some (invalidateApply b sr tok t e), tok + 1)
        | none => (none, tok)
      match cs with
      | .absent => (.mk p.1 .absent, p.2)
      | .map l =>
          let q := invalidateChildren b sr t l p.2
          (.mk p.1 (.map q.1), q.2)

/-- Recursive invalidation of a list of child nodes. -/
def invalidateChildren {α ε : Type} (b : Build) (sr : Bool) (t : Int) :
    ChildEntries (UseQueryEntry α ε) → Nat → ChildEntries (UseQueryEntry α ε) × Nat
  | .nil, tok => (.nil, tok)
  | .cons k n rest, tok =>
      let q := invalidateNode b sr t n tok
      let r := invalidateChildren b sr t rest q.2
      (.cons k q.1 r.1, r.2)
end

/-- `invalidateEntry(key, shouldRefetch)` with the key already normalized:
`find` the node of the key — returning unchanged when there is nothing to
invalidate — and apply the loop body to the entry of that node and of every
descendant node. -/
def invalidateEntry {α ε : Type} (b : Build)
    (root : TreeMapNode (UseQueryEntry α ε)) (key : List String)
    (shouldRefetch : Bool) (tok0 : Nat) (t : Int) :
    TreeMapNode (UseQueryEntry α ε) :=
  match root.find key with
  | none => root
  | some _ => root.mapAt key (fun sub => (invalidateNode b shouldRefetch t sub tok0).1)

/-! ## Structural serialization and hydration (the source `serialize` /
`createTreeMap`) -/

mutual
/-- `UseQueryEntryNodeSerialized`: `[key, value?, children?]` where the value
component is the `queryEntry_toJSON` triple when the node holds an entry. -/
inductive UseQueryEntryNodeSerialized (α ε : Type) : Type where
  | mk (key : String) (value : Option (Option α × Option ε × Int))
       (children : SerializedKids α ε)

/-- The third tuple component: either absent (`undefined` in JS) or an array
of serialized child nodes. -/
inductive SerializedKids (α ε : Type) : Type where
  | absent
  | arr (items : SerializedItems α ε)

/-- An array of serialized nodes. -/
inductive SerializedItems (α ε : Type) : Type where
  | nil
  | cons (head : UseQueryEntryNodeSerialized α ε) (tail : SerializedItems α ε)
end

mutual
/-- `_serialize([key, tree])` from the source: emit the key, the
`queryEntry_toJSON` of the value when present, and the serialized children
when the children map is present (an empty map serializes as an empty
array, an absent one as `undefined`). -/
def serializeNode {α ε : Type} :
    String → TreeMapNode (UseQueryEntry α ε) → UseQueryEntryNodeSerialized α ε
  | k, .mk v cs => .mk k (v.map queryEntry_toJSON) (serializeKids cs)

/-- Children component of `_serialize`. -/
def serializeKids {α ε : Type} :
    ChildrenMap (UseQueryEntry α ε) → SerializedKids α ε
  | .absent => .absent
  | .map l => .arr (serializeItemsOf l)

/-- Map `_serialize` over the entries of a children map. -/
def serializeItemsOf {α ε : Type} :
    ChildEntries (UseQueryEntry α ε) → SerializedItems α ε
  | .nil => .nil
  | .cons k n rest => .cons (serializeNode k n) (serializeItemsOf rest)
end

/-- `serialize(root)` from the source: map `_serialize` over the children of
the root (the value of the root itself is not serialized), yielding `[]` when
the root has no children map. -/
def serialize {α ε : Type} (root : TreeMapNode (UseQueryEntry α ε)) :
    SerializedItems α ε :=
  match root.children with
  | .absent => .nil
  | .map l => serializeItemsOf l

mutual
/-- The node built by `appendToTree` for one serialized entry:
`new TreeMapNode([], value && createQueryEntry(...value))` with the children
appended recursively. -/
def nodeOfSerialized {α ε : Type} :
    UseQueryEntryNodeSerialized α ε → String × TreeMapNode (UseQueryEntry α ε)
  | .mk k v cs =>
      (k, .mk (v.map fun w => createQueryEntry w.1 w.2.1 w.2.2) (kidsToChildren cs))

/-- Children built by the recursive `appendToTree` calls: the node keeps an
absent children map when the serialized children are absent or the loop body
never runs (empty array); otherwise the children map is created by
`parent.children ??= new Map()` and filled by `Map.set` per child. -/
def kidsToChildren {α ε : Type} :
    SerializedKids α ε → ChildrenMap (UseQueryEntry α ε)
  | .absent => .absent
  | .arr .nil => .absent
  | .arr (.cons s rest) => .map (appendItems (.cons s rest) .nil)

/-- Fold of `appendToTree` over serialized children, accumulating the
children map by `Map.set`. -/
def appendItems {α ε : Type} :
    SerializedItems α ε → ChildEntries (UseQueryEntry α ε) → ChildEntries (UseQueryEntry α ε)
  | .nil, acc => acc
  | .cons s rest, acc =>
      let p := nodeOfSerialized s
      appendItems rest (acc.replaceOrAppend p.1 p.2)
end

/-- `createTreeMap(raw)` from the source: a fresh root node into which each
serialized entry is appended; the root children map comes into being with the
first `appendToTree` call. -/
def createTreeMap {α ε : Type} (raw : SerializedItems α ε) :
    TreeMapNode (UseQueryEntry α ε) :=
  match raw with
  | .nil => .mk none .absent
  | .cons s rest => .mk none (.map (appendItems (.cons s rest) .nil))

/-- Whether a key occurs in a children list. -/
def ChildEntries.hasKey {α : Type} : ChildEntries α → String → Bool
  | .nil, _ => false
  | .cons k _ rest, k' => k = k' || rest.hasKey k'

mutual
/-- Well-formedness of trees reachable through JS `Map` children: every
present children map is non-empty (maps are created on first insertion and
the source never deletes) and keys are unique per level. -/
def WFnode {α : Type} : TreeMapNode α → Bool
  | .mk _ cs => WFkids cs

/-- Well-formedness of a children map. -/
def WFkids {α : Type} : ChildrenMap α → Bool
  | .absent => true
  | .map .nil => false
  | .map (.cons k n rest) => WFentries (.cons k n rest)

/-- Well-formedness of the entries of a children map. -/
def WFentries {α : Type} : ChildEntries α → Bool
  | .nil => true
  | .cons k n rest => !rest.hasKey k && WFnode n && WFentries rest
end

/-! ## Flat cache serialization with clock-relative timestamps -/

/-- Modelled from the spec: the per-entry value emitted by
`serializeQueryCache`, which is not among the sources at hand (only its tests
are). The spec: serialization maps the stringified key to
`[data, error, elapsedMs]` where `elapsedMs = now - entry.when` is computed on
the serializing clock at serialization time. -/
def serializeQueryCacheEntry {α ε : Type} (now : Int) (e : UseQueryEntry α ε) :
    Option α × Option ε × Int :=
  (e.data, e.error, now - e.when)

/-- Modelled from the spec: the per-entry effect of `hydrateQueryCache`,
which is not among the sources at hand (only its tests are). The spec: for
each serialized value, create a fresh entry with `data` and `error` exactly
as given and `when = hydrationTime - elapsedMs` on the receiving clock. -/
def hydrateQueryCacheEntry {α ε : Type} (now : Int)
    (v : Option α × Option ε × Int) : UseQueryEntry α ε :=
  createQueryEntry v.1 v.2.1 (now - v.2.2)

/-! ## Entry state invariant -/

/-- The spec invariant on entry state: success implies data is defined, error
implies the error is non-null, pending implies neither has been set. -/
def entryInvariant {α ε : Type} (e : UseQueryEntry α ε) : Prop :=
  (e.status = .success → e.data.isSome)
  ∧ (e.status = .error → e.error.isSome)
  ∧ (e.status = .pending → e.data = none ∧ e.error = none)

/-- Entries reachable by the entry-state operations of the source other than
`setEntryData`: creation (also hydration, which calls `createQueryEntry` with
the serialized arguments), attaching options, the synchronous prefix of
`refetch`, each settlement handler of the promise chain, and the two
mutations of the invalidation loop body. -/
inductive ReachableEntry {α ε : Type} : UseQueryEntry α ε → Prop where
  | create (d : Option α) (err : Option ε) (w : Int) :
      ReachableEntry (createQueryEntry d err w)
  | attachOptions {e : UseQueryEntry α ε} (o : UseQueryOptions α) :
      ReachableEntry e → ReachableEntry { e with options := some o }
  | start {e : UseQueryEntry α ε} (tok : Nat) (now : Int) :
      ReachableEntry e → ReachableEntry (refetchStarted e tok now)
  | thenStep {e : UseQueryEntry α ε} (tok : Nat) (v : α) :
      ReachableEntry e → ReachableEntry (handleThen e tok v)
  | catchStep {e : UseQueryEntry α ε} (tok : Nat) (err : ε) :
      ReachableEntry e → ReachableEntry (handleCatch e tok err)
  | finallyStep {e : UseQueryEntry α ε} (tok : Nat) (now : Int) :
      ReachableEntry e → ReachableEntry (handleFinally e tok now)
  | invalidate {e : UseQueryEntry α ε} :
      ReachableEntry e → ReachableEntry { e with when := 0 }
  | clearPending {e : UseQueryEntry α ε} :
      ReachableEntry e → ReachableEntry { e with pending := none }

/-! ## Helper lemmas on the settlement chain -/

/-- The chain built by `refetch` always settles fulfilled: a rejection of the
query is consumed by the `.catch` handler, which does not rethrow. -/
theorem refreshCall_snd_ok {α ε : Type} (e : UseQueryEntry α ε) (tok : Nat)
    (q : Except ε α) (t : Int) : (refreshCall e tok q t).2 = .ok () := by
  cases q <;> simp [refreshCall, jsCatch, jsFinally, handleThen, handleCatch,
    handleFinally]

/-- A settlement whose descriptor is no longer the live pending one leaves
the entry untouched and fulfils silently. -/
theorem refreshCall_superseded {α ε : Type} (e : UseQueryEntry α ε)
    (tok : Nat) (q : Except ε α) (t : Int)
    (h : pendingMatches e tok = false) :
    refreshCall e tok q t = (e, .ok ()) := by
  obtain ⟨d, er, st, w, pd, op⟩ := e
  cases q <;>
    simp [refreshCall, jsCatch, jsFinally, handleThen, handleCatch,
      handleFinally, h]

/-- A successful settlement whose descriptor is still live commits the data,
clears the error, sets status `success`, clears the pending slot and stamps
`when`. -/
theorem refreshCall_ok_commits {α ε : Type} (e : UseQueryEntry α ε)
    (tok : Nat) (v : α) (t : Int) (h : pendingMatches e tok = true) :
    refreshCall e tok (.ok v) t
      = ({ e with data := some v, error := none, status := .success,
                  pending := none, when := t }, .ok ()) := by
  obtain ⟨d, er, st, w, pd, op⟩ := e
  cases pd with
  | none => simp [pendingMatches] at h
  | some p =>
      simp only [pendingMatches] at h
      simp [refreshCall, jsCatch, jsFinally, handleThen, handleCatch,
        handleFinally, pendingMatches, h]

/-- A failed settlement whose descriptor is still live commits the error,
sets status `error`, clears the pending slot and stamps `when`; the chain
still fulfils. -/
theorem refreshCall_error_commits {α ε : Type} (e : UseQueryEntry α ε)
    (tok : Nat) (err : ε) (t : Int) (h : pendingMatches e tok = true) :
    refreshCall e tok (.error err) t
      = ({ e with error := some err, status := .error,
                  pending := none, when := t }, .ok ()) := by
  obtain ⟨d, er, st, w, pd, op⟩ := e
  cases pd with
  | none => simp [pendingMatches] at h
  | some p =>
      simp only [pendingMatches] at h
      simp [refreshCall, jsCatch, jsFinally, handleThen, handleCatch,
        handleFinally, pendingMatches, h]

/-- The freshly installed descriptor is the live pending one. -/
theorem pendingMatches_refetchStarted {α ε : Type} (e : UseQueryEntry α ε)
    (tok : Nat) (now : Int) :
    pendingMatches (refetchStarted e tok now) tok = true := by
  simp [pendingMatches, refetchStarted]

/-! ## Claim theorems -/

/-- C1: after a second refetch operation B starts on an entry, the settlement
of the earlier operation A mutates none of the entry fields and its chain
fulfils silently; only the operation whose descriptor is still the live
pending one commits (here B, whose success commits data, error, status,
pending and when), and A stays discarded even after B has settled. -/
theorem superseded_refetch_discarded {α ε : Type} (e : UseQueryEntry α ε)
    (tokA tokB : Nat) (tA tB t3 t4 : Int) (outA : Except ε α) (v : α)
    (hne : tokA ≠ tokB) :
    refreshCall (refetchStarted (refetchStarted e tokA tA) tokB tB) tokA outA t3
        = (refetchStarted (refetchStarted e tokA tA) tokB tB, .ok ())
    ∧ (refreshCall (refetchStarted (refetchStarted e tokA tA) tokB tB) tokB
          (.ok v) t4).1
        = { refetchStarted (refetchStarted e tokA tA) tokB tB with
              data := some v, error := none, status := .success,
              pending := none, when := t4 }
    ∧ refreshCall
          ((refreshCall (refetchStarted (refetchStarted e tokA tA) tokB tB) tokB
              (.ok v) t4).1) tokA outA t3
        = ((refreshCall (refetchStarted (refetchStarted e tokA tA) tokB tB) tokB
              (.ok v) t4).1, .ok ()) := by
  have hA : pendingMatches (refetchStarted (refetchStarted e tokA tA) tokB tB)
      tokA = false := by
    simp [pendingMatches, refetchStarted]
    exact fun hcontra => hne hcontra.symm
  have hB := refreshCall_ok_commits
    (refetchStarted (refetchStarted e tokA tA) tokB tB) tokB v t4
    (pendingMatches_refetchStarted _ _ _)
  refine ⟨refreshCall_superseded _ _ _ _ hA, by rw [hB], ?_⟩
  rw [hB]
  exact refreshCall_superseded _ _ _ _ (by simp [pendingMatches])

/-- C2 (modelled from the spec, the flat cache serialization is not among the
sources): serializing an entry at time `t1` emits the elapsed age
`t1 - entry.when` as the third component, hydrating at time `t2` restores
`when = t2 - elapsedMs` with data and error exactly as given, and the age
observed right after hydration equals the age at serialization, for any
offset between the two clocks. -/
theorem serializeQueryCache_age_roundtrip {α ε : Type} (e : UseQueryEntry α ε)
    (t1 t2 : Int) :
    (serializeQueryCacheEntry t1 e).2.2 = t1 - e.when
    ∧ (hydrateQueryCacheEntry t2 (serializeQueryCacheEntry t1 e)
        : UseQueryEntry α ε).when = t2 - (serializeQueryCacheEntry t1 e).2.2
    ∧ (hydrateQueryCacheEntry t2 (serializeQueryCacheEntry t1 e)
        : UseQueryEntry α ε).data = e.data
    ∧ (hydrateQueryCacheEntry t2 (serializeQueryCacheEntry t1 e)
        : UseQueryEntry α ε).error = e.error
    ∧ t2 - (hydrateQueryCacheEntry t2 (serializeQueryCacheEntry t1 e)
        : UseQueryEntry α ε).when = t1 - e.when := by
  refine ⟨rfl, rfl, rfl, rfl, ?_⟩
  simp [hydrateQueryCacheEntry, serializeQueryCacheEntry, createQueryEntry]

/-- C3 counterexample: an entry with options whose query rejects with `7` and
whose operation is never superseded; the promise returned by `refetch`
settles fulfilled (with the entry data, here `none`), not rejected with `7`,
so the failure is not re-raised to the awaiting caller. -/
theorem refetch_rejection_swallowed_cex :
    refetch_run .dev
        ({ createQueryEntry (α := Nat) (ε := Nat) none none 0 with
            options := some ⟨["k"], 0, none, 0⟩ })
        1 0 (.error 7) 5
      = .ok (⟨none, some 7, .error, 5, none, some ⟨["k"], 0, none, 0⟩⟩, .ok none)
    ∧ (Except.ok (none : Option Nat) : Except Nat (Option Nat)) ≠ .error 7 :=
  ⟨rfl, fun hcontra => Except.noConfusion hcontra⟩

/-- C3 amended: when the query of a non-superseded operation rejects with
`err`, the entry stores `err` and sets status `error` (clearing the pending
slot and stamping `when`), but the promise returned by `refetch` fulfils with
the entry data instead of rejecting: the `.catch` handler consumes the
rejection, so no awaiting caller of `refetch` (or of a deduplicated
`refresh`) observes it. -/
theorem refetch_error_commits {α ε : Type} (b : Build) (e : UseQueryEntry α ε)
    (o : UseQueryOptions α) (tok : Nat) (t1 : Int) (err : ε) (t2 : Int)
    (hopt : e.options = some o) :
    ∃ e2 : UseQueryEntry α ε,
      refetch_run b e tok t1 (.error err) t2 = .ok (e2, .ok e2.data)
      ∧ e2.error = some err ∧ e2.status = .error ∧ e2.pending = none
      ∧ e2.when = t2 ∧ e2.data = e.data := by
  refine
    ⟨{ refetchStarted e tok t1 with
        error := some err, status := .error, pending := none, when := t2 },
      ?_, rfl, rfl, rfl, rfl, rfl⟩
  have hc := refreshCall_error_commits (refetchStarted e tok t1) tok err t2
    (pendingMatches_refetchStarted _ _ _)
  simp [refetch_run, refetch_start, hopt, hc, Except.map]

/-- C4: with an entry holding options, no operation in flight and a stale or
errored state, a first refresh decides to start a fetch and a second refresh
issued while it is in flight decides to await that same operation, so the
query runs exactly once; the awaited chain fulfils, and each caller then
returns the data of the settled entry, the same value for both. -/
theorem refresh_dedup {α ε : Type} (b : Build) (e : UseQueryEntry α ε)
    (o : UseQueryOptions α) (now1 now2 : Int) (tok : Nat) (q : Except ε α)
    (t3 : Int) (hopt : e.options = some o) (hpend : e.pending = none)
    (hstale : e.error.isSome = true ∨ now1 > e.when + o.staleTime)
    (hmono : now1 ≤ now2) :
    refresh_decision b e now1 = .ok .startFetch
    ∧ refetch_start b e tok now1 = .ok (refetchStarted e tok now1)
    ∧ refresh_decision b (refetchStarted e tok now1) now2
        = .ok (.awaitInFlight tok)
    ∧ (refreshCall (refetchStarted e tok now1) tok q t3).2 = .ok ()
    ∧ refresh_resume (refreshCall (refetchStarted e tok now1) tok q t3).1
          (refreshCall (refetchStarted e tok now1) tok q t3).2
        = .ok ((refreshCall (refetchStarted e tok now1) tok q t3).1).data := by
  have hcond1 : (e.error.isSome || isExpired e.when o.staleTime now1) = true := by
    rcases hstale with h | h <;> simp [isExpired, h]
  have hcond2 : (e.error.isSome || isExpired e.when o.staleTime now2) = true := by
    rcases hstale with h | h
    · simp [h]
    · have : now2 > e.when + o.staleTime := lt_of_lt_of_le h hmono
      simp [isExpired, this]
  refine ⟨?_, ?_, ?_, refreshCall_snd_ok _ _ _ _, ?_⟩
  · simp [refresh_decision, hopt, hpend, hcond1]
  · simp [refetch_start, hopt]
  · simp [refresh_decision, refetchStarted, hopt, hcond2]
  · rw [refreshCall_snd_ok]
    rfl

/-- C5: with options attached and no operation in flight, refresh decides to
start a fetch exactly when the entry holds an error or `now` exceeds
`when + staleTime`; when neither holds, the whole refresh run returns the
current data immediately and the entry is unchanged. -/
theorem refresh_fresh_iff {α ε : Type} (b : Build) (e : UseQueryEntry α ε)
    (o : UseQueryOptions α) (now : Int) (tok : Nat) (q : Except ε α)
    (ts : Int) (hopt : e.options = some o) (hpend : e.pending = none) :
    (refresh_decision b e now = .ok .startFetch
      ↔ (e.error.isSome = true ∨ now > e.when + o.staleTime))
    ∧ (e.error = none → ¬now > e.when + o.staleTime →
        refresh_run b e now tok q ts = .ok (e, .ok e.data)) := by
  by_cases hcase : e.error.isSome = true ∨ now > e.when + o.staleTime
  · have hcond : (e.error.isSome || isExpired e.when o.staleTime now) = true := by
      rcases hcase with h | h <;> simp [isExpired, h]
    constructor
    · simp [refresh_decision, hopt, hpend, hcond, hcase]
    · intro herr hstale
      rcases hcase with h | h
      · rw [herr] at h
        simp at h
      · exact absurd h hstale
  · push_neg at hcase
    obtain ⟨herr, hstale⟩ := hcase
    have hcond : (e.error.isSome || isExpired e.when o.staleTime now) = false := by
      simp [isExpired, herr, hstale]
    have hdec : refresh_decision b e now = .ok (.immediate e.data) := by
      simp [refresh_decision, hopt, hcond]
    constructor
    · rw [hdec]
      simp
      exact ⟨Option.not_isSome_iff_eq_none.mp herr, hstale⟩
    · intro _ _
      simp [refresh_run, hdec]

/-- C7 counterexample: starting from a pending entry, `setEntryData` sets the
data and leaves the status `pending`, violating the invariant clause that a
pending entry has neither data nor error set. -/
theorem setEntryData_invariant_cex :
    ¬ entryInvariant
        (setEntryData (createQueryEntry (α := Nat) (ε := Nat) none none 0) 5) := by
  intro h
  have := h.2.2 rfl
  simp [setEntryData, createQueryEntry] at this

/-- C7 amended: the invariant (success implies data, error implies a
non-null error, pending implies neither set) holds for every entry reachable
by creation, hydration, options attachment, refetch and its settlement
handlers, refresh, and invalidation — that is, every listed operation except
`setEntryData`, which can break it because it overwrites data and clears the
error without touching the status. -/
theorem reachable_entry_invariant {α ε : Type} (e : UseQueryEntry α ε)
    (h : ReachableEntry e) : entryInvariant e := by
  induction h with
  | create d err w =>
      cases err <;> cases d <;> simp [entryInvariant, createQueryEntry]
  | attachOptions o _ ih => exact ih
  | start tok now _ ih => simp [entryInvariant, refetchStarted]
  | thenStep tok v _ ih =>
      unfold handleThen
      split
      · simp [entryInvariant]
      · exact ih
  | catchStep tok err _ ih =>
      unfold handleCatch
      split
      · simp [entryInvariant]
      · exact ih
  | finallyStep tok now _ ih =>
      unfold handleFinally
      split
      · exact ih
      · exact ih
  | invalidate _ ih => exact ih
  | clearPending _ ih => exact ih

/-- Witness for the amended C7 theorem at a concrete reachable entry. -/
theorem reachable_entry_invariant_witness :
    ReachableEntry (α := Nat) (ε := Nat)
        (handleCatch (refetchStarted (createQueryEntry (some 3) none 0) 1 2) 1 9)
    ∧ entryInvariant
        (handleCatch (refetchStarted (createQueryEntry (some 3) none 0) 1 2) 1 9) :=
  ⟨.catchStep 1 9 (.start 1 2 (.create (some 3) none 0)),
   reachable_entry_invariant _
     (.catchStep 1 9 (.start 1 2 (.create (some 3) none 0)))⟩

/-- C8 counterexample: in a production build, refetch and refresh on an entry
without options do not raise the configuration error; the unchecked access to
the missing options fails with a TypeError instead. -/
theorem missing_options_prod_cex :
    refetch_start (α := Nat) (ε := Nat) .prod (createQueryEntry none none 0) 0 0
        = .error .typeError
    ∧ refresh_decision (α := Nat) (ε := Nat) .prod (createQueryEntry none none 0) 0
        = .error .typeError
    ∧ JsError.typeError ≠ JsError.configError := by
  refine ⟨rfl, rfl, by decide⟩

/-- C8 amended: in a non-production build, calling refetch or refresh on an
entry with no attached configuration raises the configuration error at once,
before any mutation of the entry; in production the check is skipped and the
failure is a TypeError. The error is raised to the caller, not stored in the
entry error field. -/
theorem missing_options_dev_raises {α ε : Type} (e : UseQueryEntry α ε)
    (tok : Nat) (now tr : Int) (h : e.options = none) :
    refetch_start (ε := ε) .dev e tok now = .error .configError
    ∧ refresh_decision (ε := ε) .dev e tr = .error .configError := by
  constructor <;> simp [refetch_start, refresh_decision, h]

/-- Witness for the amended C8 theorem at a concrete entry. -/
theorem missing_options_dev_raises_witness :
    (createQueryEntry (α := Nat) (ε := Nat) none none 0).options = none
    ∧ (refetch_start .dev (createQueryEntry (α := Nat) (ε := Nat) none none 0) 1 5
          = .error .configError
       ∧ refresh_decision .dev (createQueryEntry (α := Nat) (ε := Nat) none none 0) 7
          = .error .configError) :=
  ⟨rfl, missing_options_dev_raises _ 1 5 7 rfl⟩

/-- Witness for the C1 theorem at concrete tokens 1 and 2, a failing older
operation and a succeeding newer one. -/
theorem superseded_refetch_discarded_witness :
    (1 : Nat) ≠ 2
    ∧ (refreshCall (refetchStarted (refetchStarted
            (createQueryEntry (α := Nat) (ε := Nat) none none 0) 1 0) 2 1)
          1 (.error 3) 5
        = (refetchStarted (refetchStarted
            (createQueryEntry (α := Nat) (ε := Nat) none none 0) 1 0) 2 1, .ok ())
      ∧ (refreshCall (refetchStarted (refetchStarted
            (createQueryEntry (α := Nat) (ε := Nat) none none 0) 1 0) 2 1)
            2 (.ok 4) 6).1
        = { refetchStarted (refetchStarted
              (createQueryEntry (α := Nat) (ε := Nat) none none 0) 1 0) 2 1 with
              data := some 4, error := none, status := .success,
              pending := none, when := 6 }
      ∧ refreshCall ((refreshCall (refetchStarted (refetchStarted
            (createQueryEntry (α := Nat) (ε := Nat) none none 0) 1 0) 2 1)
            2 (.ok 4) 6).1) 1 (.error 3) 5
        = ((refreshCall (refetchStarted (refetchStarted
            (createQueryEntry (α := Nat) (ε := Nat) none none 0) 1 0) 2 1)
            2 (.ok 4) 6).1, .ok ())) :=
  ⟨by decide,
   superseded_refetch_discarded (createQueryEntry none none 0) 1 2 0 1 5 6
     (.error 3) 4 (by decide)⟩

/-- Witness for the amended C3 theorem at a concrete rejecting query. -/
theorem refetch_error_commits_witness :
    ({ createQueryEntry (α := Nat) (ε := Nat) none none 0 with
        options := some ⟨["k"], 0, none, 0⟩ } : UseQueryEntry Nat Nat).options
      = some ⟨["k"], 0, none, 0⟩
    ∧ (∃ e2 : UseQueryEntry Nat Nat,
        refetch_run .dev
            ({ createQueryEntry (α := Nat) (ε := Nat) none none 0 with
                options := some ⟨["k"], 0, none, 0⟩ })
            1 0 (.error 7) 5
          = .ok (e2, .ok e2.data)
        ∧ e2.error = some 7 ∧ e2.status = .error ∧ e2.pending = none
        ∧ e2.when = 5
        ∧ e2.data = ({ createQueryEntry (α := Nat) (ε := Nat) none none 0 with
            options := some ⟨["k"], 0, none, 0⟩ } : UseQueryEntry Nat Nat).data) :=
  ⟨rfl, refetch_error_commits .dev _ ⟨["k"], 0, none, 0⟩ 1 0 7 5 rfl⟩

/-- Witness for the C4 theorem: a stale entry, a fetch started at 150 and a
second refresh at 160 deduplicating onto it. -/
theorem refresh_dedup_witness :
    ({ createQueryEntry (α := Nat) (ε := Nat) none none 0 with
        options := some ⟨["k"], 100, none, 0⟩ } : UseQueryEntry Nat Nat).options
      = some ⟨["k"], 100, none, 0⟩
    ∧ ({ createQueryEntry (α := Nat) (ε := Nat) none none 0 with
        options := some ⟨["k"], 100, none, 0⟩ } : UseQueryEntry Nat Nat).pending
      = none
    ∧ (({ createQueryEntry (α := Nat) (ε := Nat) none none 0 with
        options := some ⟨["k"], 100, none, 0⟩ } : UseQueryEntry Nat Nat).error.isSome
        = true
      ∨ (150 : Int) > ({ createQueryEntry (α := Nat) (ε := Nat) none none 0 with
          options := some ⟨["k"], 100, none, 0⟩ } : UseQueryEntry Nat Nat).when
          + (100 : Int))
    ∧ (150 : Int) ≤ 160
    ∧ (refresh_decision .dev
          ({ createQueryEntry (α := Nat) (ε := Nat) none none 0 with
              options := some ⟨["k"], 100, none, 0⟩ }) 150
        = .ok .startFetch
      ∧ refetch_start .dev
          ({ createQueryEntry (α := Nat) (ε := Nat) none none 0 with
              options := some ⟨["k"], 100, none, 0⟩ }) 1 150
        = .ok (refetchStarted
            ({ createQueryEntry (α := Nat) (ε := Nat) none none 0 with
                options := some ⟨["k"], 100, none, 0⟩ }) 1 150)
      ∧ refresh_decision .dev
          (refetchStarted
            ({ createQueryEntry (α := Nat) (ε := Nat) none none 0 with
                options := some ⟨["k"], 100, none, 0⟩ }) 1 150) 160
        = .ok (.awaitInFlight 1)
      ∧ (refreshCall (refetchStarted
            ({ createQueryEntry (α := Nat) (ε := Nat) none none 0 with
                options := some ⟨["k"], 100, none, 0⟩ }) 1 150) 1 (.ok 42) 170).2
        = .ok ()
      ∧ refresh_resume
          (refreshCall (refetchStarted
            ({ createQueryEntry (α := Nat) (ε := Nat) none none 0 with
                options := some ⟨["k"], 100, none, 0⟩ }) 1 150) 1 (.ok 42) 170).1
          (refreshCall (refetchStarted
            ({ createQueryEntry (α := Nat) (ε := Nat) none none 0 with
                options := some ⟨["k"], 100, none, 0⟩ }) 1 150) 1 (.ok 42) 170).2
        = .ok ((refreshCall (refetchStarted
            ({ createQueryEntry (α := Nat) (ε := Nat) none none 0 with
                options := some ⟨["k"], 100, none, 0⟩ }) 1 150) 1
              (.ok 42) 170).1).data) :=
  ⟨rfl, rfl, Or.inr (by decide), by decide,
   refresh_dedup .dev _ ⟨["k"], 100, none, 0⟩ 150 160 1 (.ok 42) 170 rfl rfl
     (Or.inr (by decide)) (by decide)⟩

/-- Witness for the C5 theorem: a fresh successful entry (fetched at 100,
staleness threshold 50, queried again at 120) for which refresh does not
start a fetch. -/
theorem refresh_fresh_iff_witness :
    ({ createQueryEntry (α := Nat) (ε := Nat) (some 1) none 100 with
        options := some ⟨["k"], 50, none, 0⟩ } : UseQueryEntry Nat Nat).options
      = some ⟨["k"], 50, none, 0⟩
    ∧ ({ createQueryEntry (α := Nat) (ε := Nat) (some 1) none 100 with
        options := some ⟨["k"], 50, none, 0⟩ } : UseQueryEntry Nat Nat).pending
      = none
    ∧ ((refresh_decision .dev
          ({ createQueryEntry (α := Nat) (ε := Nat) (some 1) none 100 with
              options := some ⟨["k"], 50, none, 0⟩ }) 120
        = .ok .startFetch
      ↔ (({ createQueryEntry (α := Nat) (ε := Nat) (some 1) none 100 with
            options := some ⟨["k"], 50, none, 0⟩ } : UseQueryEntry Nat Nat).error.isSome
          = true
        ∨ (120 : Int) > ({ createQueryEntry (α := Nat) (ε := Nat) (some 1) none 100 with
            options := some ⟨["k"], 50, none, 0⟩ } : UseQueryEntry Nat Nat).when
            + (50 : Int)))
      ∧ (({ createQueryEntry (α := Nat) (ε := Nat) (some 1) none 100 with
            options := some ⟨["k"], 50, none, 0⟩ } : UseQueryEntry Nat Nat).error = none →
          ¬(120 : Int) > ({ createQueryEntry (α := Nat) (ε := Nat) (some 1) none 100 with
            options := some ⟨["k"], 50, none, 0⟩ } : UseQueryEntry Nat Nat).when
            + (50 : Int) →
          refresh_run .dev
              ({ createQueryEntry (α := Nat) (ε := Nat) (some 1) none 100 with
                  options := some ⟨["k"], 50, none, 0⟩ }) 120 1 (.ok 2) 130
            = .ok ({ createQueryEntry (α := Nat) (ε := Nat) (some 1) none 100 with
                  options := some ⟨["k"], 50, none, 0⟩ },
                .ok ({ createQueryEntry (α := Nat) (ε := Nat) (some 1) none 100 with
                  options := some ⟨["k"], 50, none, 0⟩ } : UseQueryEntry Nat Nat).data))) :=
  ⟨rfl, rfl,
   refresh_fresh_iff .dev _ ⟨["k"], 50, none, 0⟩ 120 1 (.ok 2) 130 rfl rfl⟩

/-! ## Index lemmas -/

/-- `Map.set` makes the written key map to the written node. -/
theorem lookup_replaceOrAppend_self {α : Type} :
    ∀ (l : ChildEntries α) (k : String) (n : TreeMapNode α),
      (l.replaceOrAppend k n).lookup k = some n
  | .nil, k, n => by simp [ChildEntries.replaceOrAppend, ChildEntries.lookup]
  | .cons k' n' rest, k, n => by
      by_cases hk : k' = k
      · simp [ChildEntries.replaceOrAppend, hk, ChildEntries.lookup]
      · simp [ChildEntries.replaceOrAppend, hk, ChildEntries.lookup,
          lookup_replaceOrAppend_self rest k n]

/-- After `set(key, value)`, `get(key)` returns the value. -/
theorem get_set_self {α : Type} (ks : List String) (t : TreeMapNode α)
    (x : α) : (t.set ks x).get ks = some x := by
  induction ks generalizing t with
  | nil => cases t; rfl
  | cons k ks ih =>
      cases t with
      | mk v cs =>
          simp [TreeMapNode.set, TreeMapNode.get, TreeMapNode.children,
            ChildrenMap.entriesD, lookup_replaceOrAppend_self, ih]

/-- C10 (the index itself modelled from the spec): once an entry at a key has
a configuration attached, every later `ensureEntry` call with any
configuration returns the existing entry unchanged, keeps its stored
configuration, and stores nothing new at the key. -/
theorem ensureEntry_first_writer_wins {α ε : Type}
    (root : TreeMapNode (UseQueryEntry α ε)) (key : List String)
    (e : UseQueryEntry α ε) (o opts2 : UseQueryOptions α)
    (hget : root.get key = some e) (hopts : e.options = some o) :
    (ensureEntry root key opts2).2 = e
    ∧ (ensureEntry root key opts2).2.options = some o
    ∧ ((ensureEntry root key opts2).1).get key = some e := by
  have hnone : e.options.isNone = false := by simp [hopts]
  refine ⟨?_, ?_, ?_⟩ <;> simp [ensureEntry, hget, hnone, hopts, get_set_self]

/-- Witness for the C10 theorem at a concrete one-entry index with two
distinct configurations. -/
theorem ensureEntry_first_writer_wins_witness :
    (TreeMapNode.empty.set ["a"]
        ({ createQueryEntry (α := Nat) (ε := Nat) (some 1) none 0 with
            options := some ⟨["a"], 10, none, 0⟩ })).get ["a"]
      = some ({ createQueryEntry (α := Nat) (ε := Nat) (some 1) none 0 with
            options := some ⟨["a"], 10, none, 0⟩ })
    ∧ ({ createQueryEntry (α := Nat) (ε := Nat) (some 1) none 0 with
          options := some ⟨["a"], 10, none, 0⟩ } : UseQueryEntry Nat Nat).options
        = some ⟨["a"], 10, none, 0⟩
    ∧ ((ensureEntry (TreeMapNode.empty.set ["a"]
          ({ createQueryEntry (α := Nat) (ε := Nat) (some 1) none 0 with
              options := some ⟨["a"], 10, none, 0⟩ }))
          ["a"] ⟨["a"], 999, some 7, 1⟩).2
        = { createQueryEntry (α := Nat) (ε := Nat) (some 1) none 0 with
              options := some ⟨["a"], 10, none, 0⟩ }
      ∧ (ensureEntry (TreeMapNode.empty.set ["a"]
          ({ createQueryEntry (α := Nat) (ε := Nat) (some 1) none 0 with
              options := some ⟨["a"], 10, none, 0⟩ }))
          ["a"] ⟨["a"], 999, some 7, 1⟩).2.options
        = some ⟨["a"], 10, none, 0⟩
      ∧ ((ensureEntry (TreeMapNode.empty.set ["a"]
          ({ createQueryEntry (α := Nat) (ε := Nat) (some 1) none 0 with
              options := some ⟨["a"], 10, none, 0⟩ }))
          ["a"] ⟨["a"], 999, some 7, 1⟩).1).get ["a"]
        = some ({ createQueryEntry (α := Nat) (ε := Nat) (some 1) none 0 with
              options := some ⟨["a"], 10, none, 0⟩ })) := by
  refine ⟨rfl, rfl, ensureEntry_first_writer_wins _ _ _ ⟨["a"], 10, none, 0⟩ _ rfl rfl⟩

/-- `get` is the value of the node that `find` reaches. -/
theorem get_via_find {α : Type} :
    ∀ (ks : List String) (t : TreeMapNode α),
      t.get ks = (t.find ks).bind TreeMapNode.value
  | [], t => by cases t; rfl
  | k :: ks, t => by
      cases t with
      | mk v cs =>
          simp only [TreeMapNode.get, TreeMapNode.find, TreeMapNode.children]
          cases (cs.entriesD.lookup k) with
          | none => rfl
          | some c => exact get_via_find ks c

/-- `get` on an extended key goes through the subtree that `find` reaches. -/
theorem get_append_via_find {α : Type} :
    ∀ (ks rest : List String) (t : TreeMapNode α),
      t.get (ks ++ rest) = (t.find ks).bind (fun n => n.get rest)
  | [], rest, t => by cases t; rfl
  | k :: ks, rest, t => by
      cases t with
      | mk v cs =>
          simp only [List.cons_append, TreeMapNode.get, TreeMapNode.find,
            TreeMapNode.children]
          cases (cs.entriesD.lookup k) with
          | none => rfl
          | some c => exact get_append_via_find ks rest c

/-- Replacing the subtree at `ks` by `f` of it makes every key below `ks`
read from the transformed subtree. -/
theorem get_mapAt_append {α : Type} :
    ∀ (ks : List String) (t sub : TreeMapNode α)
      (f : TreeMapNode α → TreeMapNode α) (rest : List String),
      t.find ks = some sub →
      (t.mapAt ks f).get (ks ++ rest) = (f sub).get rest
  | [], t, sub, f, rest, h => by
      cases t
      simp only [TreeMapNode.find, Option.some.injEq] at h
      subst h
      rfl
  | k :: ks, t, sub, f, rest, h => by
      cases t with
      | mk v cs =>
          simp only [TreeMapNode.find, TreeMapNode.children] at h
          cases hl : cs.entriesD.lookup k with
          | none => rw [hl] at h; exact absurd h (by simp)
          | some c =>
              rw [hl] at h
              simp only [TreeMapNode.mapAt, TreeMapNode.children]
              rw [hl]
              simp only [List.cons_append, TreeMapNode.get,
                TreeMapNode.children, ChildrenMap.entriesD,
                lookup_replaceOrAppend_self]
              exact get_mapAt_append ks c sub f rest h

/-- The invalidation loop body always forces `when = 0`. -/
theorem invalidateApply_when {α ε : Type} (b : Build) (sr : Bool) (tok : Nat)
    (t : Int) (e : UseQueryEntry α ε) :
    (invalidateApply b sr tok t e).when = 0 := by
  cases sr with
  | false => simp [invalidateApply]
  | true =>
      cases ho : e.options <;>
        simp [invalidateApply, refetch_start, refetchStarted, ho]

/-- With `shouldRefetch`, the loop body of invalidation starts a refetch on
an entry that has options: status becomes `loading` and a fresh pending
descriptor is installed. -/
theorem invalidateApply_refetches {α ε : Type} (b : Build) (tok : Nat)
    (t : Int) (e : UseQueryEntry α ε) (o : UseQueryOptions α)
    (ho : e.options = some o) :
    (invalidateApply b true tok t e).status = .loading
    ∧ (invalidateApply b true tok t e).pending = some ⟨tok, t⟩ := by
  constructor <;> simp [invalidateApply, refetch_start, refetchStarted, ho]

/-- Invalidating a children list transforms the node found at any present
key by `invalidateNode` (with some intermediate token counter). -/
theorem lookup_invalidateChildren {α ε : Type} (b : Build) (sr : Bool)
    (t : Int) :
    ∀ (l : ChildEntries (UseQueryEntry α ε)) (k : String)
      (c : TreeMapNode (UseQueryEntry α ε)) (tok : Nat),
      l.lookup k = some c →
      ∃ tk, ((invalidateChildren b sr t l tok).1).lookup k
          = some ((invalidateNode b sr t c tk).1)
  | .nil, k, c, tok, h => by simp [ChildEntries.lookup] at h
  | .cons k' n rest, k, c, tok, h => by
      by_cases hk : k' = k
      · subst hk
        simp [ChildEntries.lookup] at h
        subst h
        refine ⟨tok, ?_⟩
        simp [invalidateChildren, ChildEntries.lookup]
      · simp only [ChildEntries.lookup, if_neg hk] at h
        obtain ⟨tk, htk⟩ := lookup_invalidateChildren b sr t rest k c
          ((invalidateNode b sr t n tok).2) h
        refine ⟨tk, ?_⟩
        simp only [invalidateChildren, ChildEntries.lookup, if_neg hk]
        exact htk

/-- Every entry in an invalidated subtree is the invalidation loop body
applied (with some token) to the original entry at the same relative key. -/
theorem get_invalidateNode {α ε : Type} (b : Build) (sr : Bool) (t : Int) :
    ∀ (rest : List String) (sub : TreeMapNode (UseQueryEntry α ε))
      (e : UseQueryEntry α ε) (tok0 : Nat),
      sub.get rest = some e →
      ∃ tk, ((invalidateNode b sr t sub tok0).1).get rest
          = some (invalidateApply b sr tk t e)
  | [], sub, e, tok0, h => by
      cases sub with
      | mk v cs =>
          simp only [TreeMapNode.get, TreeMapNode.value] at h
          subst h
          refine ⟨tok0, ?_⟩
          cases cs <;> rfl
  | k :: rest, sub, e, tok0, h => by
      cases sub with
      | mk v cs =>
          simp only [TreeMapNode.get, TreeMapNode.children] at h
          cases cs with
          | absent => simp [ChildrenMap.entriesD, ChildEntries.lookup] at h
          | map l =>
              simp only [ChildrenMap.entriesD] at h
              cases hl : l.lookup k with
              | none => rw [hl] at h; exact absurd h (by simp)
              | some c =>
                  rw [hl] at h
                  cases v with
                  | none =>
                      obtain ⟨tk0, htk0⟩ :=
                        lookup_invalidateChildren b sr t l k c tok0 hl
                      obtain ⟨tk, htk⟩ :=
                        get_invalidateNode b sr t rest c e tk0 h
                      refine ⟨tk, ?_⟩
                      simp only [invalidateNode, TreeMapNode.get,
                        TreeMapNode.children, ChildrenMap.entriesD]
                      rw [htk0]
                      exact htk
                  | some ev =>
                      obtain ⟨tk0, htk0⟩ :=
                        lookup_invalidateChildren b sr t l k c (tok0 + 1) hl
                      obtain ⟨tk, htk⟩ :=
                        get_invalidateNode b sr t rest c e tk0 h
                      refine ⟨tk, ?_⟩
                      simp only [invalidateNode, TreeMapNode.get,
                        TreeMapNode.children, ChildrenMap.entriesD]
                      rw [htk0]
                      exact htk

/-- C9 (the index itself modelled from the spec): invalidating a key applies
the invalidation loop body to its entry and to the entry of every descendant
key, forcing `when = 0` there; with `shouldRefetch`, each affected entry
additionally ends with status `loading` and a freshly installed pending
descriptor, the observable effect of clearing the slot and starting a
refetch. -/
theorem invalidateEntry_prefix_marks {α ε : Type} (b : Build)
    (root : TreeMapNode (UseQueryEntry α ε)) (k1 rest : List String)
    (sr : Bool) (tok0 : Nat) (t : Int) (e1 e2 : UseQueryEntry α ε)
    (o1 o2 : UseQueryOptions α)
    (h1 : root.get k1 = some e1) (h2 : root.get (k1 ++ rest) = some e2)
    (ho1 : e1.options = some o1) (ho2 : e2.options = some o2) :
    (∃ tk, (invalidateEntry b root k1 sr tok0 t).get k1
        = some (invalidateApply b sr tk t e1)
      ∧ (invalidateApply b sr tk t e1).when = 0
      ∧ (sr = true → (invalidateApply b sr tk t e1).status = .loading
          ∧ (invalidateApply b sr tk t e1).pending = some ⟨tk, t⟩))
    ∧ (∃ tk, (invalidateEntry b root k1 sr tok0 t).get (k1 ++ rest)
        = some (invalidateApply b sr tk t e2)
      ∧ (invalidateApply b sr tk t e2).when = 0
      ∧ (sr = true → (invalidateApply b sr tk t e2).status = .loading
          ∧ (invalidateApply b sr tk t e2).pending = some ⟨tk, t⟩)) := by
  cases hfind : root.find k1 with
  | none =>
      rw [get_via_find, hfind] at h1
      exact absurd h1 (by simp)
  | some sub =>
      have hsubval : sub.value = some e1 := by
        rw [get_via_find, hfind] at h1
        simpa using h1
      have hsub0 : sub.get [] = some e1 := by
        cases sub with
        | mk v cs => simpa [TreeMapNode.get, TreeMapNode.value] using hsubval
      have hsubrest : sub.get rest = some e2 := by
        rw [get_append_via_find, hfind] at h2
        simpa using h2
      have hmap0 := get_mapAt_append k1 root sub
        (fun s => (invalidateNode b sr t s tok0).1) [] hfind
      rw [List.append_nil] at hmap0
      have hmapr := get_mapAt_append k1 root sub
        (fun s => (invalidateNode b sr t s tok0).1) rest hfind
      constructor
      · obtain ⟨tk, htk⟩ := get_invalidateNode b sr t [] sub e1 tok0 hsub0
        refine ⟨tk, ?_, invalidateApply_when b sr tk t e1, ?_⟩
        · simp only [invalidateEntry, hfind]
          rw [hmap0]
          exact htk
        · rintro rfl
          exact invalidateApply_refetches b tk t e1 o1 ho1
      · obtain ⟨tk, htk⟩ := get_invalidateNode b sr t rest sub e2 tok0 hsubrest
        refine ⟨tk, ?_, invalidateApply_when b sr tk t e2, ?_⟩
        · simp only [invalidateEntry, hfind]
          rw [hmapr]
          exact htk
        · rintro rfl
          exact invalidateApply_refetches b tk t e2 o2 ho2

/-- Witness for the C9 theorem: a two-entry index where key `a` is a prefix
of key `a.b`, invalidated at `a` with `shouldRefetch = true`. -/
theorem invalidateEntry_prefix_marks_witness :
    ((TreeMapNode.empty.set ["a"]
        ({ createQueryEntry (α := Nat) (ε := Nat) (some 1) none 5 with
            options := some ⟨["a"], 10, none, 0⟩ })).set ["a", "b"]
        ({ createQueryEntry (α := Nat) (ε := Nat) (some 2) none 6 with
            options := some ⟨["b"], 10, none, 1⟩ })).get ["a"]
      = some ({ createQueryEntry (α := Nat) (ε := Nat) (some 1) none 5 with
            options := some ⟨["a"], 10, none, 0⟩ })
    ∧ ((TreeMapNode.empty.set ["a"]
        ({ createQueryEntry (α := Nat) (ε := Nat) (some 1) none 5 with
            options := some ⟨["a"], 10, none, 0⟩ })).set ["a", "b"]
        ({ createQueryEntry (α := Nat) (ε := Nat) (some 2) none 6 with
            options := some ⟨["b"], 10, none, 1⟩ })).get (["a"] ++ ["b"])
      = some ({ createQueryEntry (α := Nat) (ε := Nat) (some 2) none 6 with
            options := some ⟨["b"], 10, none, 1⟩ })
    ∧ ((∃ tk, (invalidateEntry .dev
          ((TreeMapNode.empty.set ["a"]
            ({ createQueryEntry (α := Nat) (ε := Nat) (some 1) none 5 with
                options := some ⟨["a"], 10, none, 0⟩ })).set ["a", "b"]
            ({ createQueryEntry (α := Nat) (ε := Nat) (some 2) none 6 with
                options := some ⟨["b"], 10, none, 1⟩ }))
          ["a"] true 0 99).get ["a"]
        = some (invalidateApply .dev true tk 99
            ({ createQueryEntry (α := Nat) (ε := Nat) (some 1) none 5 with
                options := some ⟨["a"], 10, none, 0⟩ }))
      ∧ (invalidateApply .dev true tk 99
            ({ createQueryEntry (α := Nat) (ε := Nat) (some 1) none 5 with
                options := some ⟨["a"], 10, none, 0⟩ })).when = 0
      ∧ (true = true → (invalidateApply .dev true tk 99
            ({ createQueryEntry (α := Nat) (ε := Nat) (some 1) none 5 with
                options := some ⟨["a"], 10, none, 0⟩ })).status = .loading
          ∧ (invalidateApply .dev true tk 99
            ({ createQueryEntry (α := Nat) (ε := Nat) (some 1) none 5 with
                options := some ⟨["a"], 10, none, 0⟩ })).pending = some ⟨tk, 99⟩))
    ∧ (∃ tk, (invalidateEntry .dev
          ((TreeMapNode.empty.set ["a"]
            ({ createQueryEntry (α := Nat) (ε := Nat) (some 1) none 5 with
                options := some ⟨["a"], 10, none, 0⟩ })).set ["a", "b"]
            ({ createQueryEntry (α := Nat) (ε := Nat) (some 2) none 6 with
                options := some ⟨["b"], 10, none, 1⟩ }))
          ["a"] true 0 99).get (["a"] ++ ["b"])
        = some (invalidateApply .dev true tk 99
            ({ createQueryEntry (α := Nat) (ε := Nat) (some 2) none 6 with
                options := some ⟨["b"], 10, none, 1⟩ }))
      ∧ (invalidateApply .dev true tk 99
            ({ createQueryEntry (α := Nat) (ε := Nat) (some 2) none 6 with
                options := some ⟨["b"], 10, none, 1⟩ })).when = 0
      ∧ (true = true → (invalidateApply .dev true tk 99
            ({ createQueryEntry (α := Nat) (ε := Nat) (some 2) none 6 with
                options := some ⟨["b"], 10, none, 1⟩ })).status = .loading
          ∧ (invalidateApply .dev true tk 99
            ({ createQueryEntry (α := Nat) (ε := Nat) (some 2) none 6 with
                options := some ⟨["b"], 10, none, 1⟩ })).pending = some ⟨tk, 99⟩))) := by
  refine ⟨by decide, by decide,
    invalidateEntry_prefix_marks .dev _ ["a"] ["b"] true 0 99 _ _
      ⟨["a"], 10, none, 0⟩ ⟨["b"], 10, none, 1⟩
      (by decide) (by decide) rfl rfl⟩

/-! ## Round-trip of structural serialization -/

/-- Key component of a serialized node. -/
def serializedKey {α ε : Type} : UseQueryEntryNodeSerialized α ε → String
  | .mk k _ _ => k

/-- Whether a serialized array contains a node with the given key. -/
def itemsHasKey {α ε : Type} : SerializedItems α ε → String → Bool
  | .nil, _ => false
  | .cons s rest, k => serializedKey s = k || itemsHasKey rest k

/-- Concatenation of children lists. -/
def ChildEntries.append {α : Type} : ChildEntries α → ChildEntries α → ChildEntries α
  | .nil, l => l
  | .cons k n rest, l => .cons k n (rest.append l)

/-- The children list built by hydrating each serialized node in order. -/
def itemsToEntries {α ε : Type} :
    SerializedItems α ε → ChildEntries (UseQueryEntry α ε)
  | .nil => .nil
  | .cons s rest =>
      .cons (nodeOfSerialized s).1 (nodeOfSerialized s).2 (itemsToEntries rest)

mutual
/-- Well-formedness of serialized nodes: children arrays are never empty and
keys are unique per level, as holds for every serialization of a well-formed
tree. -/
def WFsNode {α ε : Type} : UseQueryEntryNodeSerialized α ε → Bool
  | .mk _ _ cs => WFsKids cs

/-- Well-formedness of a serialized children component. -/
def WFsKids {α ε : Type} : SerializedKids α ε → Bool
  | .absent => true
  | .arr .nil => false
  | .arr (.cons s rest) => WFsItems (.cons s rest)

/-- Well-formedness of a serialized array. -/
def WFsItems {α ε : Type} : SerializedItems α ε → Bool
  | .nil => true
  | .cons s rest => !itemsHasKey rest (serializedKey s) && WFsNode s && WFsItems rest
end

/-- Appending the empty children list on the right is the identity. -/
theorem ChildEntries.append_nil {α : Type} :
    ∀ l : ChildEntries α, l.append .nil = l
  | .nil => rfl
  | .cons k n rest => by
      simp only [ChildEntries.append, ChildEntries.append_nil rest]

/-- Concatenation of children lists is associative. -/
theorem ChildEntries.append_assoc {α : Type} :
    ∀ a b c : ChildEntries α, (a.append b).append c = a.append (b.append c)
  | .nil, b, c => rfl
  | .cons k n rest, b, c => by
      simp only [ChildEntries.append, ChildEntries.append_assoc rest b c]

/-- Key membership distributes over concatenation. -/
theorem hasKey_append {α : Type} :
    ∀ (a b : ChildEntries α) (k : String),
      (a.append b).hasKey k = (a.hasKey k || b.hasKey k)
  | .nil, b, k => rfl
  | .cons k' n rest, b, k => by
      simp only [ChildEntries.append, ChildEntries.hasKey,
        hasKey_append rest b k, Bool.or_assoc]

/-- On a list not containing the key, `Map.set` is an append at the end. -/
theorem replaceOrAppend_of_not_hasKey {α : Type} :
    ∀ (l : ChildEntries α) (k : String) (n : TreeMapNode α),
      l.hasKey k = false →
      l.replaceOrAppend k n = l.append (.cons k n .nil)
  | .nil, k, n, _ => rfl
  | .cons k' n' rest, k, n, h => by
      simp only [ChildEntries.hasKey, Bool.or_eq_false_iff,
        decide_eq_false_iff_not] at h
      simp only [ChildEntries.replaceOrAppend, if_neg h.1, ChildEntries.append,
        replaceOrAppend_of_not_hasKey rest k n h.2]

/-- The key of the hydrated node is the serialized key. -/
theorem key_nodeOfSerialized {α ε : Type} (s : UseQueryEntryNodeSerialized α ε) :
    (nodeOfSerialized s).1 = serializedKey s := by
  cases s; rfl

/-- With unique keys that avoid the accumulator, the `appendToTree` fold
hydrates the serialized array in order at the end of the accumulator. -/
theorem appendItems_of_fresh_keys {α ε : Type} :
    ∀ (l : SerializedItems α ε) (acc : ChildEntries (UseQueryEntry α ε)),
      WFsItems l = true →
      (∀ k, itemsHasKey l k = true → acc.hasKey k = false) →
      appendItems l acc = acc.append (itemsToEntries l)
  | .nil, acc, _, _ => by
      simp [appendItems, itemsToEntries, ChildEntries.append_nil]
  | .cons s rest, acc, hwf, hfresh => by
      simp only [WFsItems, Bool.and_eq_true, Bool.not_eq_true'] at hwf
      obtain ⟨⟨hdup, _⟩, hwfrest⟩ := hwf
      have hacc : acc.hasKey (serializedKey s) = false :=
        hfresh _ (by simp [itemsHasKey])
      have hfresh2 : ∀ k, itemsHasKey rest k = true →
          (acc.append (.cons (serializedKey s) (nodeOfSerialized s).2 .nil)).hasKey k
            = false := by
        intro k hk
        rw [hasKey_append]
        have h1 : acc.hasKey k = false :=
          hfresh _ (by simp [itemsHasKey, hk])
        have h2 : serializedKey s ≠ k := fun hcontra => by
          rw [hcontra] at hdup
          rw [hdup] at hk
          exact Bool.false_ne_true hk
        simp [ChildEntries.hasKey, h1, h2]
      calc appendItems (.cons s rest) acc
          = appendItems rest
              (acc.replaceOrAppend (nodeOfSerialized s).1 (nodeOfSerialized s).2) := by
            simp [appendItems]
        _ = appendItems rest
              (acc.append (.cons (serializedKey s) (nodeOfSerialized s).2 .nil)) := by
            rw [key_nodeOfSerialized,
              replaceOrAppend_of_not_hasKey acc _ _ (by rw [hacc])]
        _ = (acc.append (.cons (serializedKey s) (nodeOfSerialized s).2 .nil)).append
              (itemsToEntries rest) :=
            appendItems_of_fresh_keys rest _ hwfrest hfresh2
        _ = acc.append (itemsToEntries (.cons s rest)) := by
            rw [ChildEntries.append_assoc]
            simp [ChildEntries.append, itemsToEntries, key_nodeOfSerialized]

/-- Serializing the hydration of a `queryEntry_toJSON` triple gives back the
triple. -/
theorem toJSON_createQueryEntry {α ε : Type} (w : Option α × Option ε × Int) :
    queryEntry_toJSON (createQueryEntry (ε := ε) w.1 w.2.1 w.2.2) = w := by
  cases w with
  | mk d r => cases r; rfl

mutual
/-- Serializing the hydration of a well-formed serialized node gives back the
node. -/
theorem roundtrip_node {α ε : Type} :
    ∀ s : UseQueryEntryNodeSerialized α ε, WFsNode s = true →
      serializeNode (nodeOfSerialized s).1 (nodeOfSerialized s).2 = s
  | .mk k v cs, h => by
      simp only [WFsNode] at h
      simp only [nodeOfSerialized, serializeNode]
      have hv : (v.map fun w =>
          createQueryEntry (ε := ε) w.1 w.2.1 w.2.2).map queryEntry_toJSON = v := by
        cases v with
        | none => rfl
        | some w => simp [toJSON_createQueryEntry w]
      rw [hv, roundtrip_kids cs h]

/-- Serializing the hydration of a well-formed serialized children component
gives it back. -/
theorem roundtrip_kids {α ε : Type} :
    ∀ cs : SerializedKids α ε, WFsKids cs = true →
      serializeKids (kidsToChildren cs) = cs
  | .absent, _ => rfl
  | .arr .nil, h => by simp [WFsKids] at h
  | .arr (.cons s rest), h => by
      simp only [WFsKids] at h
      simp only [kidsToChildren]
      rw [appendItems_of_fresh_keys (.cons s rest) .nil h (fun _ _ => rfl)]
      simp only [ChildEntries.append, serializeKids]
      rw [roundtrip_items (.cons s rest) h]

/-- Serializing the hydration of a well-formed serialized array gives it
back. -/
theorem roundtrip_items {α ε : Type} :
    ∀ l : SerializedItems α ε, WFsItems l = true →
      serializeItemsOf (itemsToEntries l) = l
  | .nil, _ => rfl
  | .cons s rest, h => by
      simp only [WFsItems, Bool.and_eq_true] at h
      obtain ⟨⟨_, hs⟩, hrest⟩ := h
      simp only [itemsToEntries, serializeItemsOf]
      rw [roundtrip_node s hs, roundtrip_items rest hrest]
end

/-- Key membership is preserved by serialization. -/
theorem hasKey_serializeItemsOf {α ε : Type} :
    ∀ (l : ChildEntries (UseQueryEntry α ε)) (k : String),
      itemsHasKey (serializeItemsOf l) k = l.hasKey k
  | .nil, k => rfl
  | .cons k' n rest, k => by
      have hkey : serializedKey (serializeNode (α := α) (ε := ε) k' n) = k' := by
        cases n; rfl
      simp only [serializeItemsOf, itemsHasKey, hkey, ChildEntries.hasKey,
        hasKey_serializeItemsOf rest k]

mutual
/-- The serialization of a well-formed tree node is well-formed. -/
theorem wfs_serializeNode {α ε : Type} :
    ∀ (k : String) (n : TreeMapNode (UseQueryEntry α ε)),
      WFnode n = true → WFsNode (serializeNode k n) = true
  | k, .mk v cs, h => by
      simp only [WFnode] at h
      simp only [serializeNode, WFsNode]
      exact wfs_serializeKids cs h

/-- The serialization of a well-formed children map is well-formed. -/
theorem wfs_serializeKids {α ε : Type} :
    ∀ cs : ChildrenMap (UseQueryEntry α ε),
      WFkids cs = true → WFsKids (serializeKids cs) = true
  | .absent, _ => rfl
  | .map .nil, h => by simp [WFkids] at h
  | .map (.cons k n rest), h => by
      simp only [WFkids] at h
      simp only [serializeKids, serializeItemsOf, WFsKids]
      exact wfs_serializeItems (.cons k n rest) h

/-- The serialization of a well-formed children list is well-formed. -/
theorem wfs_serializeItems {α ε : Type} :
    ∀ l : ChildEntries (UseQueryEntry α ε),
      WFentries l = true → WFsItems (serializeItemsOf l) = true
  | .nil, _ => rfl
  | .cons k n rest, h => by
      simp only [WFentries, Bool.and_eq_true, Bool.not_eq_true'] at h
      obtain ⟨⟨hdup, hn⟩, hrest⟩ := h
      simp only [serializeItemsOf, WFsItems, Bool.and_eq_true, Bool.not_eq_true']
      have hkey : serializedKey (serializeNode (α := α) (ε := ε) k n) = k := by
        cases n; rfl
      refine ⟨⟨?_, wfs_serializeNode k n hn⟩, wfs_serializeItems rest hrest⟩
      rw [hkey, hasKey_serializeItemsOf]
      exact hdup
end

/-- C6: serializing a well-formed index, hydrating it with `createTreeMap`,
and serializing again yields the identical serialized output. The source
`serialize` reads no clock at all (it emits the stored `when` values as
they are), so the output is independent of the clock at hydration time. -/
theorem serialize_createTreeMap_roundtrip {α ε : Type}
    (root : TreeMapNode (UseQueryEntry α ε)) (h : WFnode root = true) :
    serialize (createTreeMap (serialize root)) = serialize root := by
  cases root with
  | mk v cs =>
      cases cs with
      | absent => rfl
      | map l =>
          cases l with
          | nil => simp [WFnode, WFkids] at h
          | cons k n rest =>
              simp only [WFnode, WFkids] at h
              have hwfs : WFsItems
                  (.cons (serializeNode k n) (serializeItemsOf rest)) = true :=
                wfs_serializeItems (.cons k n rest) h
              simp only [serialize, TreeMapNode.children, serializeItemsOf,
                createTreeMap]
              rw [appendItems_of_fresh_keys _ .nil hwfs (fun _ _ => rfl)]
              simp only [ChildEntries.append]
              exact roundtrip_items _ hwfs

/-- Witness for the C6 theorem at a concrete one-entry index. -/
theorem serialize_createTreeMap_roundtrip_witness :
    WFnode (TreeMapNode.mk (none : Option (UseQueryEntry Nat Nat))
        (.map (.cons "a" (.mk (some (createQueryEntry (some 1) none 5)) .absent)
          .nil)))
      = true
    ∧ serialize (createTreeMap (serialize (TreeMapNode.mk
        (none : Option (UseQueryEntry Nat Nat))
        (.map (.cons "a" (.mk (some (createQueryEntry (some 1) none 5)) .absent)
          .nil)))))
      = serialize (TreeMapNode.mk (none : Option (UseQueryEntry Nat Nat))
        (.map (.cons "a" (.mk (some (createQueryEntry (some 1) none 5)) .absent)
          .nil))) :=
  ⟨by decide, serialize_createTreeMap_roundtrip _ (by decide)⟩

end PiniaColada
